import Mathlib

/-!
Shallow embedding of the adaptive chunked query engine of `slicks`
(`src/slicks/query_utils.py`) and of the window compressor
(`_compress_bins` in `src/slicks/scanner.py`).

Times and durations are modelled as integers (microseconds, the
resolution of Python `datetime`/`timedelta`); exception messages are
strings; a fallible computation returns `Except String` carrying the
raised exception's message.
-/

/-- Fixed, lower-case permanent-failure signatures
(`_PERMANENT_ERROR_PATTERNS`, query_utils.py lines 25-35). -/
def _PERMANENT_ERROR_PATTERNS : List String :=
  [ "table not found"
  , "not found"
  , "unauthorized"
  , "unauthenticated"
  , "permission denied"
  , "invalid token"
  , "database not found"
  , "bucket not found"
  , "syntax error" ]

/-- Embedding of `str(exc).lower()`: the character sequence of the
exception message, lower-cased character by character. -/
def lowerMsg (msg : String) : List Char :=
  msg.toList.map Char.toLower

/-- Embedding of `is_permanent_error` (query_utils.py lines 49-52):
true when the lowered message contains one of the fixed patterns as a
substring (Python `pattern in msg`). -/
def is_permanent_error (msg : String) : Bool :=
  _PERMANENT_ERROR_PATTERNS.any fun p => decide (p.toList <:+: lowerMsg msg)

/-- Truthiness of the Python guard `if min_span and (t1 - t0) <= min_span`
(query_utils.py line 80): `None` and the zero timedelta are falsy, any
other timedelta is truthy. `d` is the span `t1 - t0`. -/
def spanFloor (min_span : Option Int) (d : Int) : Bool :=
  match min_span with
  | none => false
  | some s => s != 0 && decide (d ≤ s)

/-- Python `timedelta / 2` (query_utils.py line 96): true division of the
microsecond count by 2, rounded to the nearest microsecond with ties to
even, exactly as `timedelta.__truediv__` does. -/
def halfDelta (d : Int) : Int :=
  let m := Int.fdiv d 2
  if Int.emod d 2 = 0 then m
  else if Int.emod m 2 = 0 then m else m + 1

/-- Result used by both floors of `adaptive_query`
(query_utils.py lines 80-88 and 97-100): the fallback's rows when a
fallback is supplied, an empty list otherwise. -/
def fallbackResult {α : Type} (fallback : Option (Int → Int → List α))
    (t0 t1 : Int) : Except String (List α) :=
  match fallback with
  | some f => .ok (f t0 t1)
  | none => .ok []

/-- Embedding of `adaptive_query` (query_utils.py lines 59-110).
`primary` and `fallback` close over the client; a `.error msg` result of
`primary` is an exception whose message is `msg`; a `.error msg` result
of `adaptive_query` is a raised `PermanentQueryError msg`. -/
def adaptive_query {α : Type} (primary : Int → Int → Except String (List α))
    (fallback : Option (Int → Int → List α)) (min_span : Option Int)
    (max_depth : Int) (t0 t1 : Int) (depth : Int) : Except String (List α) :=
  if spanFloor min_span (t1 - t0) then fallbackResult fallback t0 t1
  else if _h : max_depth < depth then fallbackResult fallback t0 t1
  else
    match primary t0 t1 with
    | .ok rows => .ok rows
    | .error msg =>
      if is_permanent_error msg then .error msg
      else
        let mid := t0 + halfDelta (t1 - t0)
        if mid ≤ t0 ∨ t1 ≤ mid then fallbackResult fallback t0 t1
        else do
          let lefts ← adaptive_query primary fallback min_span max_depth t0 mid (depth + 1)
          let rights ← adaptive_query primary fallback min_span max_depth mid t1 (depth + 1)
          return lefts ++ rights
termination_by (max_depth + 1 - depth).toNat
decreasing_by all_goals omega

/-- Comparison key used by `sorted(pairs, key=lambda row: row[0])`
(scanner.py line 533). -/
def pairLE (a b : Int × Int) : Prop := a.1 ≤ b.1

instance : DecidableRel pairLE := fun a b => inferInstanceAs (Decidable (a.1 ≤ b.1))

instance : IsTotal (Int × Int) pairLE := ⟨fun a b => Int.le_total a.1 b.1⟩

instance : IsTrans (Int × Int) pairLE := ⟨fun _ _ _ h h' => le_trans h h'⟩

/-- Embedding of `sorted(pairs, key=lambda row: row[0])`
(scanner.py line 533). -/
def sortPairs (pairs : List (Int × Int)) : List (Int × Int) :=
  List.insertionSort pairLE pairs

/-- Main loop of `_compress_bins` (scanner.py lines 538-557): walk the
remaining sorted samples carrying the open window
`(cur_start, cur_end, bins_in, rows_in)`, closing it on a gap and
flushing it at the end. A window is `(start, end, bucketCount, rowCount)`. -/
def compressLoop (step : Int) :
    List (Int × Int) → Int → Int → Int → Int → List (Int × Int × Int × Int)
  | [], cs, ce, b, r => [(cs, ce, b, r)]
  | (bs, n) :: rest, cs, ce, b, r =>
    if bs = ce then compressLoop step rest cs (ce + step) (b + 1) (r + n)
    else (cs, ce, b, r) :: compressLoop step rest bs (bs + step) 1 n

/-- Embedding of `_compress_bins` (scanner.py lines 528-558). -/
def _compress_bins (pairs : List (Int × Int)) (step : Int) :
    List (Int × Int × Int × Int) :=
  match sortPairs pairs with
  | [] => []
  | (bs, n) :: rest => compressLoop step rest bs (bs + step) 1 n

/-- Exception raised by a chunk's `query_fn` inside `run_chunks_parallel`:
either a `PermanentQueryError` or any other exception, each carrying its
message. -/
inductive QError where
  | permanent (msg : String)
  | other (msg : String)
deriving DecidableEq

instance {ε α : Type} [DecidableEq ε] [DecidableEq α] : DecidableEq (Except ε α) := fun a b =>
  match a, b with
  | .ok x, .ok y => decidable_of_iff (x = y) (by simp)
  | .ok _, .error _ => isFalse (by simp)
  | .error _, .ok _ => isFalse (by simp)
  | .error x, .error y => decidable_of_iff (x = y) (by simp)

/-- Observable outcome of one call to `run_chunks_parallel`: the returned
value or raised error, the sequence of `close()` calls made on created
clients (clients are identified by their creation index), and the
futures on which `cancel()` was called. -/
structure ExecOutcome (α : Type) where
  result : Except QError (List α)
  closed : List Nat
  cancelled : List Nat
deriving DecidableEq

/-- Loop over `as_completed(future_to_idx)` (query_utils.py lines
151-157): consume completed futures in completion order, recording each
chunk's rows keyed by its chunk index; `future.result()` re-raises the
chunk's exception, aborting the loop. -/
def collectCompleted {α : Type} (jobs : Nat → Except QError (List α)) :
    List Nat → List (Nat × List α) → Except QError (List (Nat × List α))
  | [], acc => .ok acc
  | i :: rest, acc =>
    match jobs i with
    | .ok rows => collectCompleted jobs rest (acc ++ [(i, rows)])
    | .error e => .error e

/-- Embedding of `run_chunks_parallel` (query_utils.py lines 117-172).
Concurrency is abstracted by `order`, the order in which the submitted
chunk computations complete; `query_fn i (t0, t1)` is the computation of
chunk `i` running on the client created for chunk `i`. On a
`PermanentQueryError` every future is cancelled and the error re-raised;
any other exception propagates uncaught; the `finally` block closes every
created client on all paths. -/
def run_chunks_parallel {α : Type} (chunks : List (Int × Int))
    (query_fn : Nat → Int × Int → Except QError (List α))
    (order : List Nat) : ExecOutcome α :=
  if chunks.isEmpty then ⟨.ok [], [], []⟩
  else
    let n := chunks.length
    let jobs : Nat → Except QError (List α) := fun i => query_fn i (chunks.getD i (0, 0))
    let created := List.range n
    match collectCompleted jobs order [] with
    | .error (.permanent msg) => ⟨.error (.permanent msg), created, created⟩
    | .error (.other msg) => ⟨.error (.other msg), created, []⟩
    | .ok results =>
      let sortedKeys := List.insertionSort (· ≤ ·) (results.map Prod.fst)
      ⟨.ok (sortedKeys.filterMap (fun i => results.lookup i)).flatten, created, []⟩

/-- C3: `is_permanent_error` returns true exactly when the lower-cased
message contains one of the nine fixed signatures as a substring; in
particular it returns false on the empty message, on "timeout" and on
"resource limit exceeded". -/
theorem C3_is_permanent_error_substring_characterization :
    (∀ msg : String, is_permanent_error msg = true ↔
        ∃ p ∈ _PERMANENT_ERROR_PATTERNS, p.toList <:+: lowerMsg msg) ∧
    is_permanent_error "" = false ∧
    is_permanent_error "timeout" = false ∧
    is_permanent_error "resource limit exceeded" = false := by
  refine ⟨fun msg => ?_, by decide, by decide, by decide⟩
  simp [is_permanent_error, List.any_eq_true]

theorem spanFloor_none (d : Int) : spanFloor none d = false := rfl

theorem spanFloor_some_zero (d : Int) : spanFloor (some 0) d = false := by
  simp [spanFloor]

/-- C4 counterexample: the zero timedelta is a set `min_span`, and a
zero-width range has span at most that floor, yet `adaptive_query` still
invokes the primary query and returns its rows instead of the
fallback-or-empty result, because a zero timedelta is falsy. -/
theorem C4_counterexample_zero_min_span :
    ((0 : Int) - 0 ≤ 0) ∧
    adaptive_query (α := Int) (fun _ _ => .ok [7]) none (some 0) 10 0 0 0 = .ok [7] ∧
    fallbackResult (α := Int) none 0 0 = .ok [] ∧
    adaptive_query (α := Int) (fun _ _ => .ok [7]) none (some 0) 10 0 0 0 ≠
      fallbackResult (α := Int) none 0 0 := by
  have hq : adaptive_query (α := Int) (fun _ _ => .ok [7]) none (some 0) 10 0 0 0 =
      .ok [7] := by
    rw [adaptive_query.eq_def]
    norm_num [spanFloor]
  refine ⟨le_refl 0, hq, rfl, ?_⟩
  rw [hq]
  intro h
  cases h

/-- C4 (amended): when `min_span` is set to a NONZERO duration and the
span `t1 - t0` is at most `min_span`, `adaptive_query` returns the
fallback-or-empty result whatever the primary is — so the primary query
is never invoked — and this is decided before the depth floor; otherwise,
when the span floor is not taken and `depth > max_depth`, the same
fallback-or-empty result is returned, again for every primary. -/
theorem C4_span_and_depth_floors {α : Type}
    (fallback : Option (Int → Int → List α)) (min_span : Option Int)
    (max_depth t0 t1 depth : Int) :
    (∀ s : Int, min_span = some s → s ≠ 0 → t1 - t0 ≤ s →
      ∀ primary : Int → Int → Except String (List α),
        adaptive_query primary fallback min_span max_depth t0 t1 depth =
          fallbackResult fallback t0 t1) ∧
    (spanFloor min_span (t1 - t0) = false → max_depth < depth →
      ∀ primary : Int → Int → Except String (List α),
        adaptive_query primary fallback min_span max_depth t0 t1 depth =
          fallbackResult fallback t0 t1) := by
  constructor
  · rintro s rfl hs hle primary
    rw [adaptive_query.eq_def]
    have hsf : spanFloor (some s) (t1 - t0) = true := by
      simp [spanFloor, hs, hle]
    simp [hsf]
  · intro hspan hdepth primary
    rw [adaptive_query.eq_def]
    simp [hspan, hdepth]

/-- Witness for C4: a 3-microsecond range under a 5-microsecond floor
returns the fallback rows; with no floor set and `depth = 5 > max_depth
= 2` the result is empty. -/
theorem C4_span_and_depth_floors_witness :
    adaptive_query (fun _ _ => .ok [99]) (some fun a b => [a, b]) (some 5) 10 0 3 0 =
      .ok [0, 3] ∧
    adaptive_query (fun _ _ => .ok [99]) (α := Int) none none 2 0 100 5 = .ok [] := by
  constructor
  · exact ((C4_span_and_depth_floors (some fun a b => [a, b]) (some 5) 10 0 3 0).1
      5 rfl (by decide) (by decide) (fun _ _ => .ok [99])).trans rfl
  · exact ((C4_span_and_depth_floors (α := Int) none none 2 0 100 5).2
      rfl (by decide) (fun _ _ => .ok [99])).trans rfl

theorem adaptive_query_zero_min_span_eq_none {α : Type} :
    ∀ (fuel : Nat) (primary : Int → Int → Except String (List α))
      (fallback : Option (Int → Int → List α)) (max_depth t0 t1 depth : Int),
      (max_depth + 1 - depth).toNat ≤ fuel →
      adaptive_query primary fallback (some 0) max_depth t0 t1 depth =
        adaptive_query primary fallback none max_depth t0 t1 depth := by
  intro fuel
  induction fuel with
  | zero =>
    intro primary fallback max_depth t0 t1 depth hfuel
    have hlt : max_depth < depth := by omega
    rw [adaptive_query.eq_def, adaptive_query.eq_def]
    simp [spanFloor_some_zero, spanFloor_none, hlt]
  | succ fuel ih =>
    intro primary fallback max_depth t0 t1 depth hfuel
    rw [adaptive_query.eq_def, adaptive_query.eq_def]
    simp only [spanFloor_some_zero, spanFloor_none, Bool.false_eq_true, if_false]
    by_cases hlt : max_depth < depth
    · simp [hlt]
    · simp only [dif_neg hlt]
      cases hp : primary t0 t1 with
      | ok rows => rfl
      | error msg =>
        by_cases hperm : is_permanent_error msg = true
        · simp [hperm]
        · simp only [hperm, Bool.false_eq_true, if_false]
          by_cases hmid : t0 + halfDelta (t1 - t0) ≤ t0 ∨ t1 ≤ t0 + halfDelta (t1 - t0)
          · rw [if_pos hmid, if_pos hmid]
          · have h1 := ih primary fallback max_depth t0 (t0 + halfDelta (t1 - t0))
              (depth + 1) (by omega)
            have h2 := ih primary fallback max_depth (t0 + halfDelta (t1 - t0)) t1
              (depth + 1) (by omega)
            simp [hmid, h1, h2]

/-- C10: setting `min_span` to the zero duration is observationally
identical to leaving it unset, at every argument; in particular, on a
range of non-positive span with the depth floor clear, the primary query
is still attempted and its rows returned. -/
theorem C10_zero_min_span_equivalent_to_none {α : Type}
    (primary : Int → Int → Except String (List α))
    (fallback : Option (Int → Int → List α)) (max_depth t0 t1 depth : Int) :
    (adaptive_query primary fallback (some 0) max_depth t0 t1 depth =
      adaptive_query primary fallback none max_depth t0 t1 depth) ∧
    (t1 - t0 ≤ 0 → ¬ max_depth < depth → ∀ rows : List α,
      primary t0 t1 = .ok rows →
      adaptive_query primary fallback (some 0) max_depth t0 t1 depth = .ok rows) := by
  constructor
  · exact adaptive_query_zero_min_span_eq_none _ primary fallback max_depth t0 t1 depth
      le_rfl
  · intro hspan hdepth rows hok
    rw [adaptive_query.eq_def]
    simp [spanFloor_some_zero, hdepth, hok]

/-- Witness for C10 on a zero-width range with a succeeding primary. -/
theorem C10_zero_min_span_witness :
    adaptive_query (α := Int) (fun a b => .ok [a + b]) none (some 0) 10 5 5 0 =
      adaptive_query (fun a b => .ok [a + b]) none none 10 5 5 0 ∧
    adaptive_query (α := Int) (fun a b => .ok [a + b]) none (some 0) 10 5 5 0 =
      .ok [10] := by
  refine ⟨(C10_zero_min_span_equivalent_to_none _ _ 10 5 5 0).1, ?_⟩
  exact (C10_zero_min_span_equivalent_to_none (α := Int) (fun a b => .ok [a + b])
    none 10 5 5 0).2 (by decide) (by decide) [10] rfl

/-- C5: when the primary query fails recoverably and the midpoint
`t0 + (t1 - t0)/2` lies strictly inside the range, `adaptive_query`
returns the left-half recursion's rows followed by the right-half
recursion's rows, each at depth one greater; when the midpoint is
degenerate it returns the fallback-or-empty result without recursing. -/
theorem C5_recoverable_split {α : Type}
    (primary : Int → Int → Except String (List α))
    (fallback : Option (Int → Int → List α)) (min_span : Option Int)
    (max_depth t0 t1 depth : Int) (msg : String)
    (hspan : spanFloor min_span (t1 - t0) = false)
    (hdepth : ¬ max_depth < depth)
    (herr : primary t0 t1 = .error msg)
    (hrec : is_permanent_error msg = false) :
    (t0 < t0 + halfDelta (t1 - t0) ∧ t0 + halfDelta (t1 - t0) < t1 →
      adaptive_query primary fallback min_span max_depth t0 t1 depth = do
        let lefts ← adaptive_query primary fallback min_span max_depth t0
          (t0 + halfDelta (t1 - t0)) (depth + 1)
        let rights ← adaptive_query primary fallback min_span max_depth
          (t0 + halfDelta (t1 - t0)) t1 (depth + 1)
        return lefts ++ rights) ∧
    (¬ (t0 < t0 + halfDelta (t1 - t0) ∧ t0 + halfDelta (t1 - t0) < t1) →
      adaptive_query primary fallback min_span max_depth t0 t1 depth =
        fallbackResult fallback t0 t1) := by
  constructor
  · intro hmid
    rw [adaptive_query.eq_def]
    simp only [hspan, Bool.false_eq_true, if_false, dif_neg hdepth, herr, hrec]
    rw [if_neg (by omega)]
  · intro hmid
    rw [adaptive_query.eq_def]
    simp only [hspan, Bool.false_eq_true, if_false, dif_neg hdepth, herr, hrec]
    rw [if_pos (by omega)]

/-- Witness for C5: a recoverable "timeout" on `[0, 100)` splits at 50;
on `[0, 1)` the split is degenerate and the result is empty. -/
theorem C5_recoverable_split_witness :
    (adaptive_query (α := Int) (fun _ _ => .error "timeout") none none 10 0 100 0 = do
      let lefts ← adaptive_query (fun _ _ => .error "timeout") none none 10 0 50 1
      let rights ← adaptive_query (fun _ _ => .error "timeout") none none 10 50 100 1
      return lefts ++ rights) ∧
    adaptive_query (α := Int) (fun _ _ => .error "timeout") none none 10 0 1 0 =
      .ok [] := by
  constructor
  · exact (C5_recoverable_split (fun _ _ => .error "timeout") none none 10 0 100 0
      "timeout" rfl (by decide) rfl (by decide)).1 (by decide)
  · exact ((C5_recoverable_split (fun _ _ => .error "timeout") none none 10 0 1 0
      "timeout" rfl (by decide) rfl (by decide)).2 (by decide)).trans rfl

theorem collectCompleted_ok_of_error {α : Type}
    (jobs : Nat → Except QError (List α)) (e : QError) :
    ∀ (pre : List Nat) (j : Nat) (post : List Nat) (acc : List (Nat × List α)),
      (∀ i ∈ pre, ∃ rows, jobs i = .ok rows) → jobs j = .error e →
      collectCompleted jobs (pre ++ j :: post) acc = .error e := by
  intro pre
  induction pre with
  | nil =>
    intro j post acc hpre hj
    simp [collectCompleted, hj]
  | cons i rest ih =>
    intro j post acc hpre hj
    obtain ⟨rows, hrows⟩ := hpre i (List.mem_cons_self i rest)
    have hstep : collectCompleted jobs ((i :: rest) ++ j :: post) acc =
        collectCompleted jobs (rest ++ j :: post) (acc ++ [(i, rows)]) := by
      simp [collectCompleted, hrows]
    rw [hstep]
    exact ih j post _ (fun x hx => hpre x (List.mem_cons_of_mem _ hx)) hj

/-- C2: a permanent failure of the primary query makes `adaptive_query`
raise `PermanentQueryError` with that message, with no split attempted
(the result does not depend on the fallback or on any recursion); and a
chunk failing with `PermanentQueryError` inside `run_chunks_parallel`
makes the call re-raise that very error — not a wrapped one — after
calling `cancel()` on every submitted future. -/
theorem C2_permanent_error_propagation {α : Type} :
    (∀ (primary : Int → Int → Except String (List α))
       (fallback : Option (Int → Int → List α)) (min_span : Option Int)
       (max_depth t0 t1 depth : Int) (msg : String),
        spanFloor min_span (t1 - t0) = false → ¬ max_depth < depth →
        primary t0 t1 = .error msg → is_permanent_error msg = true →
        adaptive_query primary fallback min_span max_depth t0 t1 depth =
          .error msg) ∧
    (∀ (chunks : List (Int × Int))
       (query_fn : Nat → Int × Int → Except QError (List α))
       (pre : List Nat) (j : Nat) (post : List Nat) (msg : String),
        chunks ≠ [] →
        (∀ i ∈ pre, ∃ rows, query_fn i (chunks.getD i (0, 0)) = .ok rows) →
        query_fn j (chunks.getD j (0, 0)) = .error (.permanent msg) →
        (run_chunks_parallel chunks query_fn (pre ++ j :: post)).result =
          .error (.permanent msg) ∧
        (run_chunks_parallel chunks query_fn (pre ++ j :: post)).cancelled =
          List.range chunks.length) := by
  constructor
  · intro primary fallback min_span max_depth t0 t1 depth msg hspan hdepth herr hperm
    rw [adaptive_query.eq_def]
    simp [hspan, hdepth, herr, hperm]
  · intro chunks query_fn pre j post msg hne hpre hj
    have hnotempty : chunks.isEmpty = false := by
      simpa [List.isEmpty_iff] using hne
    have hcol := collectCompleted_ok_of_error
      (fun i => query_fn i (chunks.getD i (0, 0))) (.permanent msg) pre j post [] hpre hj
    refine ⟨?_, ?_⟩ <;>
    · simp only [run_chunks_parallel, hnotempty, Bool.false_eq_true, if_false]
      rw [hcol]

/-- Witness for C2: a permanently failing primary on `[0, 100)`, and a
single chunk raising `PermanentQueryError "unauthorized"`. -/
theorem C2_permanent_error_propagation_witness :
    adaptive_query (α := Int) (fun _ _ => .error "table not found") none none 10 0 100 0 =
      .error "table not found" ∧
    ((run_chunks_parallel (α := Int) [(0, 1)]
        (fun _ _ => .error (.permanent "unauthorized")) [0]).result =
      .error (.permanent "unauthorized") ∧
     (run_chunks_parallel (α := Int) [(0, 1)]
        (fun _ _ => .error (.permanent "unauthorized")) [0]).cancelled =
      List.range 1) := by
  constructor
  · exact C2_permanent_error_propagation.1 _ none none 10 0 100 0 "table not found"
      rfl (by decide) rfl (by decide)
  · exact C2_permanent_error_propagation.2 [(0, 1)] _ [] 0 [] "unauthorized"
      (by decide) (by intro i hi; simp at hi) rfl

theorem collectCompleted_all_ok {α : Type} (jobs : Nat → Except QError (List α))
    (res : Nat → List α) :
    ∀ (l : List Nat) (acc : List (Nat × List α)),
      (∀ i ∈ l, jobs i = .ok (res i)) →
      collectCompleted jobs l acc = .ok (acc ++ l.map fun i => (i, res i)) := by
  intro l
  induction l with
  | nil => intro acc _; simp [collectCompleted]
  | cons i rest ih =>
    intro acc h
    have hi := h i (List.mem_cons_self i rest)
    simp only [collectCompleted, hi]
    rw [ih _ (fun x hx => h x (List.mem_cons_of_mem _ hx))]
    simp

theorem lookup_map_pair {β : Type} (res : Nat → β) :
    ∀ (l : List Nat) (i : Nat), i ∈ l →
      List.lookup i (l.map fun j => (j, res j)) = some (res i) := by
  intro l
  induction l with
  | nil => intro i hi; cases hi
  | cons j rest ih =>
    intro i hi
    by_cases hij : i = j
    · subst hij; simp [List.lookup]
    · have hmem : i ∈ rest := by
        rcases List.mem_cons.mp hi with h | h
        · exact absurd h hij
        · exact h
      have hbeq : (i == j) = false := beq_eq_false_iff_ne.mpr hij
      simp only [List.map_cons, List.lookup, hbeq]
      exact ih i hmem

theorem filterMap_all_some {β γ : Type} (f : β → Option γ) (g : β → γ) :
    ∀ l : List β, (∀ x ∈ l, f x = some (g x)) → l.filterMap f = l.map g := by
  intro l
  induction l with
  | nil => intro _; rfl
  | cons x rest ih =>
    intro h
    rw [List.filterMap_cons, h x (List.mem_cons_self x rest),
      ih (fun y hy => h y (List.mem_cons_of_mem _ hy)), List.map_cons]

/-- C1: for a non-empty chunk list in which every chunk computation
succeeds, and for every completion order of the chunk computations,
`run_chunks_parallel` returns the concatenation of the per-chunk row
lists in chunk-index order 0, 1, 2, ..., each chunk's own list kept
intact. -/
theorem C1_results_concatenated_in_chunk_index_order {α : Type}
    (chunks : List (Int × Int))
    (query_fn : Nat → Int × Int → Except QError (List α))
    (order : List Nat) (res : Nat → List α)
    (hne : chunks ≠ [])
    (hperm : order.Perm (List.range chunks.length))
    (hok : ∀ i ∈ List.range chunks.length,
      query_fn i (chunks.getD i (0, 0)) = .ok (res i)) :
    (run_chunks_parallel chunks query_fn order).result =
      .ok (((List.range chunks.length).map res).flatten) := by
  have hnotempty : chunks.isEmpty = false := by
    simpa [List.isEmpty_iff] using hne
  have hokall : ∀ i ∈ order, query_fn i (chunks.getD i (0, 0)) = .ok (res i) :=
    fun i hi => hok i (hperm.mem_iff.mp hi)
  have hcol : collectCompleted (fun i => query_fn i (chunks.getD i (0, 0))) order [] =
      .ok (order.map fun i => (i, res i)) := by
    simpa using collectCompleted_all_ok _ res order [] hokall
  have hkeys : (order.map fun i => (i, res i)).map Prod.fst = order := by
    rw [List.map_map]
    exact List.map_id order
  have hsorted : List.insertionSort (· ≤ ·) order = List.range chunks.length := by
    refine List.eq_of_perm_of_sorted ((List.perm_insertionSort _ order).trans hperm)
      (List.sorted_insertionSort _ order) (List.sorted_le_range _)
  have hlooks : ∀ i ∈ List.range chunks.length,
      List.lookup i (order.map fun j => (j, res j)) = some (res i) :=
    fun i hi => lookup_map_pair res order i (hperm.mem_iff.mpr hi)
  simp only [run_chunks_parallel, hnotempty, Bool.false_eq_true, if_false]
  rw [hcol]
  simp only [hkeys, hsorted]
  rw [filterMap_all_some _ res _ hlooks]

/-- Witness for C1: the spec's executor scenario — 4 chunks for days 1-4,
each returning its day, completing in the order 2, 0, 3, 1 — still yields
`[1, 2, 3, 4]`. -/
theorem C1_results_concatenated_witness :
    (run_chunks_parallel (α := Int) [(1, 2), (2, 3), (3, 4), (4, 5)]
      (fun _ c => .ok [c.1]) [2, 0, 3, 1]).result = .ok [1, 2, 3, 4] := by
  have h := C1_results_concatenated_in_chunk_index_order
    [(1, 2), (2, 3), (3, 4), (4, 5)] (fun _ c => .ok [c.1]) [2, 0, 3, 1]
    (fun i => [(i : Int) + 1]) (by decide) (by decide) ?_
  · exact h.trans (by decide)
  · intro i hi
    fin_cases hi <;> rfl

/-- C8: every client created by one call to `run_chunks_parallel` is
closed exactly once before the call returns, on every exit path (normal,
permanent error, any other error), and nothing but created clients is
ever closed. -/
theorem C8_every_client_closed_exactly_once {α : Type}
    (chunks : List (Int × Int))
    (query_fn : Nat → Int × Int → Except QError (List α))
    (order : List Nat) :
    (run_chunks_parallel chunks query_fn order).closed = List.range chunks.length ∧
    (∀ c ∈ List.range chunks.length,
      ((run_chunks_parallel chunks query_fn order).closed).count c = 1) ∧
    (∀ c ∈ (run_chunks_parallel chunks query_fn order).closed,
      c < chunks.length) := by
  have hclosed :
      (run_chunks_parallel chunks query_fn order).closed = List.range chunks.length := by
    by_cases hemp : chunks.isEmpty
    · have : chunks = [] := List.isEmpty_iff.mp hemp
      subst this
      rfl
    · have hnotempty : chunks.isEmpty = false := by
        simpa using hemp
      simp only [run_chunks_parallel, hnotempty, Bool.false_eq_true, if_false]
      cases hcol : collectCompleted (fun i => query_fn i (chunks.getD i (0, 0))) order []
        with
      | ok results => rfl
      | error e => cases e <;> rfl
  refine ⟨hclosed, ?_, ?_⟩
  · intro c hc
    rw [hclosed]
    exact List.count_eq_one_of_mem (List.nodup_range _) hc
  · intro c hc
    rw [hclosed] at hc
    exact List.mem_range.mp hc

/-- Witness for C8: two chunks, the second raising a permanent error:
both clients 0 and 1 are closed exactly once. -/
theorem C8_every_client_closed_witness :
    (run_chunks_parallel (α := Int) [(0, 1), (1, 2)]
      (fun i c => if i = 0 then .ok [c.1] else .error (.permanent "not found"))
      [0, 1]).closed = List.range 2 ∧
    ((run_chunks_parallel (α := Int) [(0, 1), (1, 2)]
      (fun i c => if i = 0 then .ok [c.1] else .error (.permanent "not found"))
      [0, 1]).closed).count 0 = 1 := by
  have h := C8_every_client_closed_exactly_once (α := Int) [(0, 1), (1, 2)]
    (fun i c => if i = 0 then .ok [c.1] else .error (.permanent "not found")) [0, 1]
  exact ⟨h.1, h.2.1 0 (by decide)⟩

theorem compressLoop_width (step : Int) :
    ∀ (l : List (Int × Int)) (cs ce b r : Int), ce - cs = b * step →
      ∀ w ∈ compressLoop step l cs ce b r, w.2.1 - w.1 = w.2.2.1 * step := by
  intro l
  induction l with
  | nil =>
    intro cs ce b r h w hw
    simp only [compressLoop, List.mem_singleton] at hw
    subst hw
    exact h
  | cons q rest ih =>
    obtain ⟨bs, n⟩ := q
    intro cs ce b r h w hw
    simp only [compressLoop] at hw
    by_cases hbs : bs = ce
    · rw [if_pos hbs] at hw
      exact ih cs (ce + step) (b + 1) (r + n) (by linear_combination h) w hw
    · rw [if_neg hbs] at hw
      rcases List.mem_cons.mp hw with hw | hw
      · subst hw
        exact h
      · exact ih bs (bs + step) 1 n (by ring) w hw

theorem compressLoop_separated (step : Int) (hstep : 0 < step) :
    ∀ (l : List (Int × Int)) (p : Int × Int) (cs ce b r : Int),
      cs < ce → p.1 = ce - step →
      List.Chain (fun a b => a.1 < b.1 ∧ step ∣ (b.1 - a.1)) p l →
      (∀ w ∈ compressLoop step l cs ce b r, cs ≤ w.1) ∧
      (∀ w ∈ compressLoop step l cs ce b r, w.1 < w.2.1) ∧
      List.Pairwise (fun w w' => w.2.1 < w'.1) (compressLoop step l cs ce b r) := by
  intro l
  induction l with
  | nil =>
    intro p cs ce b r hce hp hchain
    refine ⟨?_, ?_, ?_⟩
    · intro w hw
      rw [compressLoop, List.mem_singleton] at hw
      subst hw
      exact le_refl cs
    · intro w hw
      rw [compressLoop, List.mem_singleton] at hw
      subst hw
      exact hce
    · rw [compressLoop]
      exact List.pairwise_singleton _ _
  | cons q rest ih =>
    obtain ⟨bs, n⟩ := q
    intro p cs ce b r hce hp hchain
    cases hchain with
    | cons hrel hchain' =>
      have hbs_ge : ce ≤ bs := by
        have h1 : 0 < bs - p.1 := by omega
        have h2 := Int.le_of_dvd h1 hrel.2
        omega
      rw [compressLoop]
      by_cases hbs : bs = ce
      · rw [if_pos hbs]
        exact ih (bs, n) cs (ce + step) (b + 1) (r + n) (by omega)
          (by show bs = ce + step - step; omega) hchain'
      · rw [if_neg hbs]
        have hlt : ce < bs := lt_of_le_of_ne hbs_ge (fun h => hbs h.symm)
        obtain ⟨hlb, hse, hpw⟩ := ih (bs, n) bs (bs + step) 1 n (by omega)
          (by show bs = bs + step - step; ring) hchain'
        refine ⟨?_, ?_, ?_⟩
        · intro w hw
          rcases List.mem_cons.mp hw with hw | hw
          · subst hw
            exact le_refl cs
          · have := hlb w hw
            omega
        · intro w hw
          rcases List.mem_cons.mp hw with hw | hw
          · subst hw
            exact hce
          · exact hse w hw
        · refine List.pairwise_cons.mpr ⟨?_, hpw⟩
          intro w hw
          have := hlb w hw
          show ce < w.1
          omega

/-- C6 counterexample: with step 10 and samples whose bucket starts 0 and
3 are not aligned to a common 10-grid, `_compress_bins` emits the windows
`[0, 10)` and `[3, 13)`, which overlap — so the output windows are not
pairwise disjoint for every input, contrary to the claim. -/
theorem C6_counterexample_overlapping_windows :
    _compress_bins [(0, 1), (3, 1)] 10 = [(0, 10, 1, 1), (3, 13, 1, 1)] ∧
    ¬ List.Pairwise (fun w w' : Int × Int × Int × Int =>
        w.2.1 ≤ w'.1 ∨ w'.2.1 ≤ w.1) (_compress_bins [(0, 1), (3, 1)] 10) := by
  constructor
  · decide
  · decide

/-- C6 (amended): for every positive step, every window of
`_compress_bins` satisfies `end - start = bucketCount * step`; and
PROVIDED the input samples' bucket starts are pairwise distinct and
pairwise differ by a multiple of the step, the output windows are also
pairwise disjoint, sorted strictly ascending by start, and pairwise
non-adjacent (no window's start equals another window's end). -/
theorem C6_compress_bins_window_invariants (pairs : List (Int × Int)) (step : Int)
    (hstep : 0 < step) :
    (∀ w ∈ _compress_bins pairs step, w.2.1 - w.1 = w.2.2.1 * step) ∧
    ((pairs.Pairwise fun a b => a.1 ≠ b.1 ∧ step ∣ (b.1 - a.1)) →
      List.Pairwise (fun w w' => w.2.1 ≤ w'.1 ∨ w'.2.1 ≤ w.1)
        (_compress_bins pairs step) ∧
      List.Pairwise (fun w w' => w.1 < w'.1) (_compress_bins pairs step) ∧
      List.Pairwise (fun w w' => w.1 ≠ w'.2.1 ∧ w'.1 ≠ w.2.1)
        (_compress_bins pairs step)) := by
  constructor
  · unfold _compress_bins
    cases hs : sortPairs pairs with
    | nil =>
      intro w hw
      cases hw
    | cons q rest =>
      obtain ⟨bs, n⟩ := q
      exact compressLoop_width step rest bs (bs + step) 1 n (by ring)
  · intro halign
    have hperm := List.perm_insertionSort pairLE pairs
    have hsym : ∀ {x y : Int × Int}, (x.1 ≠ y.1 ∧ step ∣ (y.1 - x.1)) →
        (y.1 ≠ x.1 ∧ step ∣ (x.1 - y.1)) := by
      intro x y h
      refine ⟨h.1.symm, ?_⟩
      rw [show x.1 - y.1 = -(y.1 - x.1) by ring]
      exact dvd_neg.mpr h.2
    have halign' : (sortPairs pairs).Pairwise
        (fun a b => a.1 ≠ b.1 ∧ step ∣ (b.1 - a.1)) :=
      (hperm.pairwise_iff hsym).mpr halign
    have hle : (sortPairs pairs).Pairwise pairLE := List.sorted_insertionSort pairLE pairs
    have hstrict : (sortPairs pairs).Pairwise
        (fun a b => a.1 < b.1 ∧ step ∣ (b.1 - a.1)) :=
      (hle.and halign').imp (fun h => ⟨lt_of_le_of_ne h.1 h.2.1, h.2.2⟩)
    unfold _compress_bins
    cases hs : sortPairs pairs with
    | nil =>
      exact ⟨List.Pairwise.nil, List.Pairwise.nil, List.Pairwise.nil⟩
    | cons q rest =>
      obtain ⟨bs, n⟩ := q
      rw [hs] at hstrict
      have hchain : List.Chain (fun a b : Int × Int => a.1 < b.1 ∧ step ∣ (b.1 - a.1))
          (bs, n) rest := hstrict.chain'
      obtain ⟨hlb, hse, hpw⟩ := compressLoop_separated step hstep rest (bs, n) bs
        (bs + step) 1 n (by omega) (by show bs = bs + step - step; ring) hchain
      refine ⟨?_, ?_, ?_⟩
      · exact hpw.imp (fun h => Or.inl (le_of_lt h))
      · refine hpw.imp_of_mem ?_
        intro w w' hw hw' hr
        exact lt_trans (hse w hw) hr
      · refine hpw.imp_of_mem ?_
        intro w w' hw hw' hr
        have h1 := hse w hw
        have h2 := hse w' hw'
        constructor <;> omega

/-- Witness for C6 over an aligned, duplicate-free input at step 10. -/
theorem C6_compress_bins_window_invariants_witness :
    (∀ w ∈ _compress_bins [(0, 1), (10, 2), (30, 5)] 10,
      w.2.1 - w.1 = w.2.2.1 * 10) ∧
    List.Pairwise (fun w w' => w.2.1 ≤ w'.1 ∨ w'.2.1 ≤ w.1)
      (_compress_bins [(0, 1), (10, 2), (30, 5)] 10) ∧
    List.Pairwise (fun w w' => w.1 < w'.1)
      (_compress_bins [(0, 1), (10, 2), (30, 5)] 10) ∧
    List.Pairwise (fun w w' => w.1 ≠ w'.2.1 ∧ w'.1 ≠ w.2.1)
      (_compress_bins [(0, 1), (10, 2), (30, 5)] 10) := by
  have h := C6_compress_bins_window_invariants [(0, 1), (10, 2), (30, 5)] 10 (by decide)
  exact ⟨h.1, h.2 (by decide)⟩

theorem compressLoop_sums (step : Int) :
    ∀ (l : List (Int × Int)) (cs ce b r : Int),
      ((compressLoop step l cs ce b r).map (fun w => w.2.2.2)).sum =
        r + (l.map Prod.snd).sum ∧
      ((compressLoop step l cs ce b r).map (fun w => w.2.2.1)).sum =
        b + (l.length : Int) := by
  intro l
  induction l with
  | nil =>
    intro cs ce b r
    simp [compressLoop]
  | cons q rest ih =>
    obtain ⟨bs, n⟩ := q
    intro cs ce b r
    rw [compressLoop]
    by_cases hbs : bs = ce
    · rw [if_pos hbs]
      obtain ⟨h1, h2⟩ := ih cs (ce + step) (b + 1) (r + n)
      constructor
      · simp only [h1, List.map_cons, List.sum_cons]
        ring
      · simp only [h2, List.length_cons]
        push_cast
        ring
    · rw [if_neg hbs]
      obtain ⟨h1, h2⟩ := ih bs (bs + step) 1 n
      constructor
      · simp only [List.map_cons, List.sum_cons, h1]
      · simp only [List.map_cons, List.sum_cons, h2, List.length_cons]
        push_cast
        ring

theorem compress_bins_sums (pairs : List (Int × Int)) (step : Int) :
    ((_compress_bins pairs step).map (fun w => w.2.2.2)).sum =
      (pairs.map Prod.snd).sum ∧
    ((_compress_bins pairs step).map (fun w => w.2.2.1)).sum =
      (pairs.length : Int) := by
  have hperm : (sortPairs pairs).Perm pairs := List.perm_insertionSort pairLE pairs
  have hsnd : ((sortPairs pairs).map Prod.snd).sum = (pairs.map Prod.snd).sum :=
    (hperm.map Prod.snd).sum_eq
  have hlen : (sortPairs pairs).length = pairs.length := hperm.length_eq
  unfold _compress_bins
  cases hs : sortPairs pairs with
  | nil =>
    have : pairs = [] := (by rw [hs] at hperm; exact hperm.symm.eq_nil)
    subst this
    simp
  | cons q rest =>
    obtain ⟨bs, n⟩ := q
    rw [hs] at hsnd hlen
    obtain ⟨h1, h2⟩ := compressLoop_sums step rest bs (bs + step) 1 n
    constructor
    · rw [h1, ← hsnd, List.map_cons, List.sum_cons]
    · rw [h2, ← hlen, List.length_cons]
      push_cast
      ring

/-- C9: for every input and every positive step, the window rowCounts of
`_compress_bins` sum to the total of the input counts, and the window
bucketCounts sum to the number of input samples — every sample lands in
exactly one window. -/
theorem C9_compress_bins_conserves_samples (pairs : List (Int × Int)) (step : Int)
    (hstep : 0 < step) :
    ((_compress_bins pairs step).map (fun w => w.2.2.2)).sum =
      (pairs.map Prod.snd).sum ∧
    ((_compress_bins pairs step).map (fun w => w.2.2.1)).sum =
      (pairs.length : Int) :=
  compress_bins_sums pairs step

/-- Witness for C9 at a two-sample input with step 10. -/
theorem C9_compress_bins_conserves_samples_witness :
    ((_compress_bins [(0, 1), (20, 2)] 10).map (fun w => w.2.2.2)).sum =
      ([(0, 1), (20, 2)].map Prod.snd).sum ∧
    ((_compress_bins [(0, 1), (20, 2)] 10).map (fun w => w.2.2.1)).sum =
      (([(0, 1), (20, 2)] : List (Int × Int)).length : Int) :=
  C9_compress_bins_conserves_samples [(0, 1), (20, 2)] 10 (by decide)

/-- C7: duplicate bucket starts are not deduplicated: even when the input
contains duplicate bucketStart values, every sample's count still
accumulates into the rowCount of the window open when it is processed,
and every sample still contributes one bucket, so the window rowCounts
sum to the full input total and the bucketCounts sum to the full sample
count, duplicates included. -/
theorem C7_duplicates_accumulate (pairs : List (Int × Int)) (step : Int)
    (hdup : ¬ (pairs.map Prod.fst).Nodup) :
    ((_compress_bins pairs step).map (fun w => w.2.2.2)).sum =
      (pairs.map Prod.snd).sum ∧
    ((_compress_bins pairs step).map (fun w => w.2.2.1)).sum =
      (pairs.length : Int) :=
  compress_bins_sums pairs step

/-- Witness for C7: two samples sharing bucketStart 0 still contribute
5 + 3 = 8 rows and 2 buckets in total. -/
theorem C7_duplicates_accumulate_witness :
    ((_compress_bins [(0, 5), (0, 3)] 10).map (fun w => w.2.2.2)).sum =
      ([(0, 5), (0, 3)].map Prod.snd).sum ∧
    ((_compress_bins [(0, 5), (0, 3)] 10).map (fun w => w.2.2.1)).sum =
      (([(0, 5), (0, 3)] : List (Int × Int)).length : Int) :=
  C7_duplicates_accumulate [(0, 5), (0, 3)] 10 (by decide)
